import Mathlib

/-
Verification of the cwmud persistent entity system (src/cwmud/core/entities.py)
against its natural-language specification.

The Python module is shallowly embedded: entity instances become explicit
records, the durable store and the LRU cache become explicit association
lists that every operation threads through, and the process-wide UID counter
becomes an explicit numeric argument and result.  Components of the
repository that are imported by entities.py but whose sources are not part
of this snapshot (attributes.py, utils/mixins.py, utils/funcs.py, timing.py)
are modelled from the specification; each such definition carries a doc
comment saying so.
-/

namespace Cwmud

/-- Attribute, tag and key values stored on entities.  Python values are
dynamically typed; a small closed universe of scalars is enough for the
claims under verification. -/
inductive Val where
  | vInt : Int → Val
  | vStr : String → Val
  | vBool : Bool → Val
deriving DecidableEq, Repr

/-- Lookup in an association list keyed by strings, mirroring Python
dict/getattr lookup (first match wins). -/
def alook (k : String) : List (String × Val) → Option Val
  | [] => none
  | (k', v) :: rest => if k' = k then some v else alook k rest

/-- Key list of an association list. -/
def keysOf (l : List (String × Val)) : List String :=
  l.map Prod.fst

/-- Add each element of the second list to the first unless already present.
This is the name-set behaviour of a Python dict update or set add:
duplicates collapse, existing entries keep their position. -/
def addUnique (cur new' : List String) : List String :=
  new'.foldl (fun acc f => if acc.contains f then acc else acc ++ [f]) cur

/-! ## Identity Generator (Entity.make_uid, entities.py lines 347-365)

The module constant _uid_timecode_multiplier is 10000 and the charset is a
58-character alphabet.  TIMERS.time (timing.py, not in this snapshot) is a
clock reading supplied here as an explicit argument.  The process-wide
Entity.__uid_timecode counter is threaded explicitly. -/

def uidTimecodeMultiplier : Nat := 10000

/-- The 58-character time-code alphabet of entities.py
("0123456789aAbBcCdDeEfFgGhHijJkKLmM" ++ "nNopPqQrRstTuUvVwWxXyYzZ"). -/
def uidCharset : List Char :=
  ['0', '1', '2', '3', '4', '5', '6', '7', '8', '9',
   'a', 'A', 'b', 'B', 'c', 'C', 'd', 'D', 'e', 'E',
   'f', 'F', 'g', 'G', 'h', 'H', 'i', 'j', 'J', 'k',
   'K', 'L', 'm', 'M', 'n', 'N', 'o', 'p', 'P', 'q',
   'Q', 'r', 'R', 's', 't', 'T', 'u', 'U', 'v', 'V',
   'w', 'W', 'x', 'X', 'y', 'Y', 'z', 'Z']

/-- Little-endian base-58 digit expansion, structurally recursive on a fuel
bound so that it reduces inside the kernel; fuel at least n is always
enough because the argument at least halves each step. -/
def digitsLEAux (fuel n : Nat) : List Nat :=
  match fuel with
  | 0 => [n % 58]
  | fuel' + 1 => if n < 58 then [n] else (n % 58) :: digitsLEAux fuel' (n / 58)

/-- Little-endian base-58 digit list of a natural number. -/
def digitsLE (n : Nat) : List Nat :=
  digitsLEAux n n

/-- Base-58 value of a little-endian digit list. -/
def valLE : List Nat → Nat
  | [] => 0
  | d :: ds => d + 58 * valLE ds

/-- Character of the alphabet at a digit position. -/
def charAt (d : Nat) : Char :=
  uidCharset.getD d ' '

/-- Modelled from the spec: int_to_base_n lives in cwmud/core/utils/funcs.py,
which is not part of this snapshot.  Per section 4.1 it is a base-N
positional rendering of the number into the fixed alphabet, most significant
digit first. -/
def int_to_base_n (n : Nat) : String :=
  String.mk ((digitsLE n).reverse.map charAt)

/-- Entity.make_uid: multiply the clock reading by the multiplier; if the
result exceeds the process-wide last-issued counter it is adopted, otherwise
the counter advances by one.  Returns the rendered UID and the new counter
value (which equals the issued numeric time-code). -/
def make_uid (code : String) (clock : Nat) (last : Nat) : String × Nat :=
  let bigTime := clock * uidTimecodeMultiplier
  let tc := if bigTime > last then bigTime else last + 1
  (code ++ "-" ++ int_to_base_n tc, tc)

theorem valLE_digitsLEAux (fuel : Nat) : ∀ n, n ≤ fuel → valLE (digitsLEAux fuel n) = n := by
  induction fuel with
  | zero =>
    intro n hn
    have : n = 0 := Nat.le_zero.mp hn
    subst this
    simp [digitsLEAux, valLE]
  | succ fuel' ih =>
    intro n hn
    unfold digitsLEAux
    by_cases h : n < 58
    · rw [if_pos h]
      simp [valLE]
    · rw [if_neg h]
      have hpos : 0 < n := Nat.lt_of_lt_of_le (by norm_num) (Nat.le_of_not_lt h)
      have hdiv : n / 58 < n := Nat.div_lt_self hpos (by norm_num)
      have hle : n / 58 ≤ fuel' :=
        Nat.le_of_lt_succ (Nat.lt_of_lt_of_le hdiv hn)
      simp only [valLE, ih (n / 58) hle]
      exact Nat.mod_add_div n 58

theorem valLE_digitsLE (n : Nat) : valLE (digitsLE n) = n :=
  valLE_digitsLEAux n n (Nat.le_refl n)

theorem digitsLE_inj {a b : Nat} (h : digitsLE a = digitsLE b) : a = b := by
  have := valLE_digitsLE a
  rw [h, valLE_digitsLE] at this
  exact this.symm

theorem digitsLEAux_lt (fuel : Nat) : ∀ n, ∀ d ∈ digitsLEAux fuel n, d < 58 := by
  induction fuel with
  | zero =>
    intro n d hd
    rw [digitsLEAux, List.mem_singleton] at hd
    subst hd
    exact Nat.mod_lt n (by norm_num)
  | succ fuel' ih =>
    intro n d hd
    unfold digitsLEAux at hd
    by_cases h : n < 58
    · rw [if_pos h, List.mem_singleton] at hd
      subst hd
      exact h
    · rw [if_neg h, List.mem_cons] at hd
      rcases hd with hd | hd
      · subst hd; exact Nat.mod_lt n (by norm_num)
      · exact ih (n / 58) d hd

theorem digitsLE_lt (n : Nat) : ∀ d ∈ digitsLE n, d < 58 :=
  digitsLEAux_lt n n

theorem charAt_inj_on :
    ∀ d1 < 58, ∀ d2 < 58, charAt d1 = charAt d2 → d1 = d2 := by
  decide

theorem map_charAt_inj : ∀ l1 l2 : List Nat, (∀ d ∈ l1, d < 58) → (∀ d ∈ l2, d < 58) →
    l1.map charAt = l2.map charAt → l1 = l2 := by
  intro l1
  induction l1 with
  | nil => intro l2 _ _ h; cases l2 <;> simp_all
  | cons d ds ih =>
    intro l2 h1 h2 h
    cases l2 with
    | nil => simp_all
    | cons e es =>
      simp only [List.map_cons, List.cons.injEq] at h
      have hd : d = e :=
        charAt_inj_on d (h1 d (by simp)) e (h2 e (by simp)) h.1
      have hds : ds = es :=
        ih es (fun x hx => h1 x (by simp [hx])) (fun x hx => h2 x (by simp [hx])) h.2
      rw [hd, hds]

theorem int_to_base_n_inj {a b : Nat} (h : int_to_base_n a = int_to_base_n b) : a = b := by
  unfold int_to_base_n at h
  have hdata : ((digitsLE a).reverse.map charAt) = ((digitsLE b).reverse.map charAt) :=
    congrArg String.data h
  have hrev : (digitsLE a).reverse = (digitsLE b).reverse :=
    map_charAt_inj _ _ (fun d hd => digitsLE_lt a d (List.mem_reverse.mp hd))
      (fun d hd => digitsLE_lt b d (List.mem_reverse.mp hd)) hdata
  exact digitsLE_inj (List.reverse_injective hrev)

theorem string_append_right_inj (p s1 s2 : String) (h : p ++ s1 = p ++ s2) : s1 = s2 := by
  have hd : p.data ++ s1.data = p.data ++ s2.data := congrArg String.data h
  cases s1; cases s2
  simp only [List.append_cancel_left_eq] at hd
  simp [hd]

/-- UID strings with the same entity code and different numeric time-codes
differ, because the base-58 rendering is injective. -/
theorem uid_string_inj (code : String) {t1 t2 : Nat}
    (h : code ++ "-" ++ int_to_base_n t1 = code ++ "-" ++ int_to_base_n t2) :
    t1 = t2 := by
  have hassoc1 : code ++ "-" ++ int_to_base_n t1 = code ++ ("-" ++ int_to_base_n t1) := by
    simp [String.append_assoc]
  have hassoc2 : code ++ "-" ++ int_to_base_n t2 = code ++ ("-" ++ int_to_base_n t2) := by
    simp [String.append_assoc]
  rw [hassoc1, hassoc2] at h
  have h2 := string_append_right_inj code _ _ h
  have h3 := string_append_right_inj "-" _ _ h2
  exact int_to_base_n_inj h3

/-- The numeric time-code issued by make_uid is always strictly greater than
the previous last-issued value. -/
theorem make_uid_advances (code : String) (clock last : Nat) :
    last < (make_uid code clock last).2 := by
  unfold make_uid
  by_cases h : clock * uidTimecodeMultiplier > last
  · simp [h]
  · simp [h]

/-- Claim C1: two make_uid calls in sequence on the same process yield
strictly increasing numeric time-codes (the counter advances by at least one
per call even when the clock stalls), hence distinct time-code renderings
and, for a fixed entity code, distinct UID strings; the time-code suffixes
are (strictly, hence non-decreasingly) ordered. -/
theorem c1_make_uid_strictly_monotonic (code1 code2 : String) (clock1 clock2 last0 : Nat) :
    last0 < (make_uid code1 clock1 last0).2 ∧
    (make_uid code1 clock1 last0).2 <
      (make_uid code2 clock2 (make_uid code1 clock1 last0).2).2 ∧
    int_to_base_n (make_uid code1 clock1 last0).2 ≠
      int_to_base_n (make_uid code2 clock2 (make_uid code1 clock1 last0).2).2 ∧
    (code1 = code2 →
      (make_uid code1 clock1 last0).1 ≠
        (make_uid code2 clock2 (make_uid code1 clock1 last0).2).1) := by
  set r1 := make_uid code1 clock1 last0 with hr1def
  set r2 := make_uid code2 clock2 r1.2 with hr2def
  have h1 : last0 < r1.2 := make_uid_advances code1 clock1 last0
  have h2 : r1.2 < r2.2 := make_uid_advances code2 clock2 r1.2
  have hne : r1.2 ≠ r2.2 := Nat.ne_of_lt h2
  have henc : int_to_base_n r1.2 ≠ int_to_base_n r2.2 := by
    intro h; exact hne (int_to_base_n_inj h)
  refine ⟨h1, h2, henc, ?_⟩
  intro hcode h
  apply henc
  have : code1 ++ "-" ++ int_to_base_n r1.2 = code1 ++ "-" ++ int_to_base_n r2.2 := by
    have hr1 : r1.1 = code1 ++ "-" ++ int_to_base_n r1.2 := rfl
    have hr2 : r2.1 = code2 ++ "-" ++ int_to_base_n r2.2 := rfl
    rw [hr1, hr2, ← hcode] at h
    exact h
  have hassoc : code1 ++ "-" ++ int_to_base_n r1.2 = code1 ++ ("-" ++ int_to_base_n r1.2) := by
    simp [String.append_assoc]
  have hassoc2 : code1 ++ "-" ++ int_to_base_n r2.2 = code1 ++ ("-" ++ int_to_base_n r2.2) := by
    simp [String.append_assoc]
  rw [hassoc, hassoc2] at this
  have := string_append_right_inj code1 _ _ this
  exact string_append_right_inj "-" _ _ this

/-! ## Data model

An entity class contributes its name (class_name, used as the "type" key),
its UID code (_uid_code), its storage key name (_store_key, the plain-string
form; the claims under verification do not involve the 3-tuple form), and
the composed schema's attribute names with their default values. -/

/-- Static configuration of a concrete entity class. -/
structure ClassCfg where
  name : String
  uidCode : String
  storeKey : String
  defaults : List (String × Val)
deriving DecidableEq, Repr

/-- Observable state of one entity instance: uid, composed-schema attribute
values, flags, tags, the dirty bit, the savable bit and the active bit. -/
structure EntityState where
  uid : String
  attrs : List (String × Val)
  flags : List String
  tags : List (String × Val)
  dirty : Bool
  savable : Bool
  active : Bool
deriving DecidableEq, Repr

/-- The serialized dict produced by Entity.serialize: the blob's field
values plus the reserved keys "type", "uid", "flags" and "tags".  The
reserved keys are optional because deserialize and clone remove them. -/
structure Record where
  rtype : Option String
  ruid : Option String
  rflags : Option (List String)
  rtags : Option (List (String × Val))
  rattrs : List (String × Val)
deriving DecidableEq, Repr

/-- Errors raised by the embedded operations: TypeError for a missing store,
KeyError for duplicate or missing keys and unregistered types, ValueError
for the revert uid mismatch, AttributeError for dereferencing the absent
store or setting a setterless property. -/
inductive Err where
  | noStore
  | dupKey
  | keyError
  | uidMismatch
  | attrError
deriving DecidableEq, Repr

/-! ## Durable store (external collaborator, spec section 6)

An association list from keys to records.  An entry holding none stands for
a key that is still enumerated by keys() but whose read raises KeyError
(pending deletion), the situation handled inside Entity.find. -/

abbrev StoreData := List (Val × Option Record)

def storeLookup (s : StoreData) (k : Val) : Option (Option Record) :=
  match s with
  | [] => none
  | (k', v) :: rest => if k' = k then some v else storeLookup rest k

def storeHas (s : StoreData) (k : Val) : Bool :=
  match storeLookup s k with
  | some (some _) => true
  | _ => false

def storeGet (s : StoreData) (k : Val) : Option Record :=
  match storeLookup s k with
  | some (some r) => some r
  | _ => none

def storePut (s : StoreData) (k : Val) (r : Record) : StoreData :=
  if (storeLookup s k).isSome then
    s.map (fun p => if p.1 = k then (k, some r) else p)
  else
    s ++ [(k, some r)]

def storeDel (s : StoreData) (k : Val) : StoreData :=
  s.filter (fun p => !(p.1 == k))

def storeKeys (s : StoreData) : List Val :=
  s.map Prod.fst

/-! ## Entity operations (entities.py) -/

/-- Entity.key: for _store_key = "uid" the getattr returns the uid itself,
otherwise the value of the named attribute. -/
def keyOf (cfg : ClassCfg) (e : EntityState) : Val :=
  if cfg.storeKey = "uid" then Val.vStr e.uid
  else (alook cfg.storeKey e.attrs).getD (Val.vStr "")

/-- Entity.is_savable: a configured (truthy) store and the savable bit. -/
def is_savable (e : EntityState) (st : Option StoreData) : Bool :=
  st.isSome && e.savable

/-- Entity.serialize: the blob's serialized field values (modelled from the
spec, section 4.7: DataBlob.serialize in attributes.py, not in this
snapshot, emits the composed schema's field values) plus type, uid, flags
and a copy of the tags. -/
def serializeE (cfg : ClassCfg) (e : EntityState) : Record :=
  { rtype := some cfg.name
    ruid := some e.uid
    rflags := some e.flags
    rtags := some e.tags
    rattrs := e.attrs }

/-- Modelled from the spec: DataBlob.deserialize (attributes.py, not in this
snapshot) delegates the remaining record keys to the composed schema,
setting each schema field that the record mentions (section 4.7). -/
def blobDeserialize (attrs dat : List (String × Val)) : List (String × Val) :=
  attrs.map (fun kv =>
    match alook kv.1 dat with
    | some v => (kv.1, v)
    | none => kv)

/-- Entity.deserialize: drop "type"; adopt "uid" when present; add (not
replace) "flags"; clear then replace "tags"; hand the attribute fields to
the blob.  The flag-add and tag mixin behaviour is modelled from the spec
(utils/mixins.py is not in this snapshot). -/
def deserializeE (e : EntityState) (r : Record) : EntityState :=
  let e1 := match r.ruid with
    | some u => { e with uid := u }
    | none => e
  let e2 := match r.rflags with
    | some fs => { e1 with flags := addUnique e1.flags fs }
    | none => e1
  let e3 := match r.rtags with
    | some ts => { e2 with tags := ts }
    | none => e2
  { e3 with attrs := blobDeserialize e3.attrs r.rattrs }

/-- Entity construction (entities.py lines 195-230, without the schema walk,
which is embedded separately as buildBlob): start from the composed-schema
defaults with empty flags and tags and a clean dirty bit, deserialize the
seed data if given, and request a fresh UID when none was adopted.  The
registration of the instance into _instances and the key cache is a side
effect on shared registries and is threaded separately by the operations
that need it. -/
def construct (cfg : ClassCfg) (data : Option Record) (active savable : Bool)
    (clock ctr : Nat) : EntityState × Nat :=
  let e0 : EntityState :=
    { uid := "", attrs := cfg.defaults, flags := [], tags := [],
      dirty := false, savable := savable, active := active }
  match data with
  | none =>
    let r := make_uid cfg.uidCode clock ctr
    ({ e0 with uid := r.1 }, r.2)
  | some d =>
    let e1 := deserializeE e0 d
    if d.ruid.isSome then (e1, ctr)
    else
      let r := make_uid cfg.uidCode clock ctr
      ({ e1 with uid := r.1 }, r.2)

/-- Entity.save: a logged no-op when not savable; otherwise handle the
pending "_old_key" tag (delete the old record, drop the tag), then put the
serialization under the current key and clear dirty. -/
def saveE (cfg : ClassCfg) (e : EntityState) (st : Option StoreData) :
    EntityState × Option StoreData :=
  if is_savable e st then
    match st with
    | none => (e, none)
    | some s =>
      let cleanup :=
        match alook "_old_key" e.tags with
        | some oldKey =>
          ((if storeHas s oldKey then storeDel s oldKey else s),
           { e with tags := e.tags.filter (fun kv => !(kv.1 == "_old_key")) })
        | none => (s, e)
      let data := serializeE cfg cleanup.2
      ({ cleanup.2 with dirty := false },
       some (storePut cleanup.1 (keyOf cfg cleanup.2) data))
  else (e, st)

/-- Entity.revert: TypeError with no store; KeyError when the key is not
stored (store.get with no default) or the stored record has no uid;
ValueError when the stored uid differs from the in-memory uid; otherwise
deserialize the record over the instance and clear dirty.  The source
raises before any mutation, so the error cases return no new state. -/
def revertE (cfg : ClassCfg) (e : EntityState) (st : Option StoreData) :
    Except Err EntityState :=
  match st with
  | none => .error .noStore
  | some s =>
    match storeGet s (keyOf cfg e) with
    | none => .error .keyError
    | some r =>
      match r.ruid with
      | none => .error .keyError
      | some u =>
        if u ≠ e.uid then .error .uidMismatch
        else .ok { deserializeE e r with dirty := false }

/-- Modelled from the spec: the attribute property setter (_set_attr_val in
attributes.py, not in this snapshot) stores the new value of a declared
attribute and marks the entity dirty (sections 3 and 4.10). -/
def setAttrVal (e : EntityState) (k : String) (v : Val) : EntityState :=
  { e with
    attrs := e.attrs.map (fun kv => if kv.1 = k then (k, v) else kv)
    dirty := true }

/-- Entity.clone: TypeError with no store; KeyError when the new key already
exists in the store; otherwise serialize, strip "uid", construct a fresh
entity of the same class from the remainder and assign it the new key.  The
key assignment goes through the key property setter; for a class stored by
"uid" that setattr hits the setterless uid property and raises
AttributeError, for an attribute-named key it sets that attribute.  A
callable new_key is outside this value universe and is not modelled. -/
def cloneE (cfg : ClassCfg) (e : EntityState) (newKey : Val)
    (st : Option StoreData) (clock ctr : Nat) : Except Err (EntityState × Nat) :=
  match st with
  | none => .error .noStore
  | some s =>
    if storeHas s newKey then .error .dupKey
    else
      let data := { serializeE cfg e with ruid := none }
      let r := construct cfg (some data) false true clock ctr
      if cfg.storeKey = "uid" then .error .attrError
      else .ok (setAttrVal r.1 cfg.storeKey newKey, r.2)

/-- Entity.exists: a truthy store that has the key, else a live instance
with that key — by uid when the class is stored by uid, otherwise by linear
scan over the live instances. -/
def existsE (cfg : ClassCfg) (st : Option StoreData)
    (instances : List EntityState) (k : Val) : Bool :=
  (match st with
   | some s => storeHas s k
   | none => false) ||
  (if cfg.storeKey = "uid" then
    instances.any (fun e => Val.vStr e.uid == k)
  else
    instances.any (fun e => keyOf cfg e == k))

/-! ## Bounded LRU cache (spec section 4.5)

Modelled from the spec: the cache itself is pylru's lrucache, an external
collaborator with a fixed contract — bounded capacity, least-recently-used
eviction on insertion past capacity, and an eviction callback.  Entries are
kept least-recently-used first, so eviction takes the head.  The eviction
callback (_EntityMeta._cache_eject_callback, entities.py lines 148-161) is
in the source: it calls entity.save(). -/

structure LRUCache where
  cap : Nat
  entries : List (Val × EntityState)
deriving DecidableEq, Repr

def cacheHas (c : LRUCache) (k : Val) : Bool :=
  c.entries.any (fun p => p.1 == k)

def cacheDel (c : LRUCache) (k : Val) : LRUCache :=
  { c with entries := c.entries.filter (fun p => !(p.1 == k)) }

/-- Insertion: refresh an existing key, append below capacity, otherwise
evict the least recently used entry, invoking the eviction callback
(entity.save) on it, and append the new entry. -/
def cacheInsert (cfg : ClassCfg) (c : LRUCache) (k : Val) (e : EntityState)
    (st : Option StoreData) : LRUCache × Option StoreData :=
  if cacheHas c k then
    ({ c with entries := (c.entries.filter (fun p => !(p.1 == k))) ++ [(k, e)] }, st)
  else if c.entries.length < c.cap then
    ({ c with entries := c.entries ++ [(k, e)] }, st)
  else
    match c.entries with
    | [] => ({ c with entries := [(k, e)] }, st)
    | (_, e0) :: rest =>
      let r := saveE cfg e0 st
      ({ c with entries := rest ++ [(k, e)] }, r.2)

/-- Entity.delete: drop the key from the key cache when the cache is truthy
and holds it, then delete the record from the store when the store is
truthy and has the key.  The instance itself stays registered. -/
def deleteE (cfg : ClassCfg) (e : EntityState) (c : LRUCache)
    (st : Option StoreData) : LRUCache × Option StoreData :=
  let k := keyOf cfg e
  let c' := if c.entries ≠ [] ∧ cacheHas c k then cacheDel c k else c
  let st' := match st with
    | some s => if storeHas s k then some (storeDel s k) else some s
    | none => none
  (c', st')

/-! ## Helper lemmas on association lists and addUnique -/

theorem alook_cons_ne (q k : String) (va : Val) (a : List (String × Val))
    (h : k ≠ q) : alook q ((k, va) :: a) = alook q a := by
  simp [alook, h]

theorem blobDeserialize_skip (d : List (String × Val)) (k : String) (va : Val)
    (a : List (String × Val)) (hk : k ∉ keysOf d) :
    blobDeserialize d ((k, va) :: a) = blobDeserialize d a := by
  unfold blobDeserialize
  apply List.map_congr_left
  intro kv hkv
  have hne : k ≠ kv.1 := by
    intro h
    exact hk (h ▸ List.mem_map_of_mem Prod.fst hkv)
  rw [alook_cons_ne kv.1 k va a hne]

/-- Deserializing a full, duplicate-free attribute map over the schema it
came from reproduces that map exactly. -/
theorem blobDeserialize_full (d a : List (String × Val))
    (hkeys : keysOf d = keysOf a) (hnd : (keysOf d).Nodup) :
    blobDeserialize d a = a := by
  induction d generalizing a with
  | nil =>
    cases a with
    | nil => rfl
    | cons p a' => simp [keysOf] at hkeys
  | cons p d' ih =>
    cases a with
    | nil => simp [keysOf] at hkeys
    | cons q a' =>
      obtain ⟨k, v⟩ := p
      obtain ⟨k', va⟩ := q
      simp only [keysOf, List.map_cons, List.cons.injEq] at hkeys
      obtain ⟨hk, htail⟩ := hkeys
      subst hk
      simp only [keysOf, List.map_cons, List.nodup_cons] at hnd
      obtain ⟨hknotin, hnd'⟩ := hnd
      have hhead : alook k ((k, va) :: a') = some va := by simp [alook]
      have hknotin' : k ∉ keysOf d' := hknotin
      have hskip : blobDeserialize d' ((k, va) :: a') = blobDeserialize d' a' :=
        blobDeserialize_skip d' k va a' hknotin'
      have htl : blobDeserialize d' a' = a' := ih a' htail hnd'
      show (match alook k ((k, va) :: a') with
            | some v => (k, v)
            | none => (k, v)) :: blobDeserialize d' ((k, va) :: a') = (k, va) :: a'
      rw [hhead, hskip, htl]

theorem addUnique_append (acc l : List String) (hnd : l.Nodup)
    (hdisj : ∀ x ∈ l, x ∉ acc) : addUnique acc l = acc ++ l := by
  induction l generalizing acc with
  | nil => simp [addUnique]
  | cons f fs ih =>
    simp only [List.nodup_cons] at hnd
    have hf : acc.contains f = false := by
      rw [Bool.eq_false_iff]
      intro hc
      exact hdisj f (by simp) (List.elem_iff.mp hc)
    unfold addUnique
    simp only [List.foldl_cons, hf, Bool.false_eq_true, if_false]
    have : List.foldl (fun acc f => if acc.contains f then acc else acc ++ [f]) (acc ++ [f]) fs
        = addUnique (acc ++ [f]) fs := rfl
    rw [this, ih (acc ++ [f]) hnd.2]
    · simp
    · intro x hx
      simp only [List.mem_append, List.mem_singleton]
      rintro (hxa | hxf)
      · exact hdisj x (by simp [hx]) hxa
      · exact hnd.1 (hxf ▸ hx)

theorem addUnique_nil (l : List String) (hnd : l.Nodup) : addUnique [] l = l := by
  rw [addUnique_append [] l hnd (by simp)]
  simp

/-- Claim C2: serializing a well-formed entity and deserializing the result
into a freshly constructed entity of the same class reproduces the same
uid, the same attribute values, the same flags and the same tags.  The
well-formedness hypotheses state the construction invariants: the entity
carries exactly the composed schema's fields, the schema's field names are
duplicate-free, and the flag set holds no duplicates. -/
theorem c2_serialize_deserialize_roundtrip (cfg : ClassCfg) (x : EntityState)
    (clock ctr : Nat)
    (hkeys : keysOf x.attrs = keysOf cfg.defaults)
    (hnd : (keysOf cfg.defaults).Nodup)
    (hfl : x.flags.Nodup) :
    let y := deserializeE (construct cfg none false true clock ctr).1 (serializeE cfg x)
    y.uid = x.uid ∧ y.attrs = x.attrs ∧ y.flags = x.flags ∧ y.tags = x.tags := by
  intro y
  have hy : y = deserializeE
      { uid := (make_uid cfg.uidCode clock ctr).1, attrs := cfg.defaults,
        flags := [], tags := [], dirty := false, savable := true, active := false }
      (serializeE cfg x) := rfl
  rw [hy]
  unfold deserializeE serializeE
  simp only
  refine ⟨trivial, ?_, ?_, trivial⟩
  · exact blobDeserialize_full cfg.defaults x.attrs (hkeys.symm) (hkeys ▸ hnd)
  · exact addUnique_nil x.flags hfl

/-- A concrete entity class stored under its "name" attribute. -/
def itemCfg : ClassCfg :=
  { name := "Item", uidCode := "I", storeKey := "name",
    defaults := [("name", Val.vStr "thing")] }

/-- A concrete live item. -/
def item0 : EntityState :=
  { uid := "I-1", attrs := [("name", Val.vStr "sword")], flags := [], tags := [],
    dirty := false, savable := true, active := false }

theorem c2_witness :
    keysOf item0.attrs = keysOf itemCfg.defaults ∧
    (keysOf itemCfg.defaults).Nodup ∧ item0.flags.Nodup ∧
    (let y := deserializeE (construct itemCfg none false true 3 0).1
        (serializeE itemCfg item0)
     y.uid = item0.uid ∧ y.attrs = item0.attrs ∧ y.flags = item0.flags ∧
       y.tags = item0.tags) :=
  ⟨by decide, by decide, by decide,
   c2_serialize_deserialize_roundtrip itemCfg item0 3 0 (by decide) (by decide) (by decide)⟩

/-- Claim C4, counterexample: saving a savable entity whose class has no
durable store configured does not raise a usage error; it returns normally,
leaving the entity and the (absent) store untouched.  In the source the
non-savable branch of Entity.save logs a warning and returns, with no raise
path. -/
theorem c4_counterexample_save_no_store_is_noop :
    saveE itemCfg item0 none = (item0, none) := by
  rfl

/-- Claim C4, amended: with no durable store configured, save is a logged
no-op: it returns without error and mutates neither the entity state nor
any store state.  (Clone and revert, by contrast, do raise before any
mutation when no store is configured; the raise-on-save half of the claim
contradicts the code and the spec's own soft-failure row.) -/
theorem c4_save_without_store_is_noop (cfg : ClassCfg) (e : EntityState) :
    saveE cfg e none = (e, none) := by
  simp [saveE, is_savable]

/-- Claim C6: revert raises a usage error (TypeError) when no store is
configured, raises a consistency error (ValueError) when the stored
record's uid differs from the in-memory uid, and on success deserializes
the stored record over the instance and clears the dirty flag.  The source
raises before performing any mutation, so the embedded error cases carry no
successor state: the in-memory state is unchanged. -/
theorem c6_revert_checks_and_success (cfg : ClassCfg) (x : EntityState)
    (s : StoreData) (r : Record) (u : String) :
    (revertE cfg x none = .error .noStore) ∧
    (storeGet s (keyOf cfg x) = some r → r.ruid = some u → u ≠ x.uid →
      revertE cfg x (some s) = .error .uidMismatch) ∧
    (storeGet s (keyOf cfg x) = some r → r.ruid = some x.uid →
      revertE cfg x (some s) = .ok { deserializeE x r with dirty := false }) := by
  refine ⟨rfl, ?_, ?_⟩
  · intro h1 h2 h3
    simp [revertE, h1, h2, h3]
  · intro h1 h2
    simp [revertE, h1, h2]

/-- A stored record whose uid does not match item0's. -/
def wrongRec : Record :=
  { rtype := some "Item", ruid := some "I-999", rflags := some [],
    rtags := some [], rattrs := [("name", Val.vStr "sword")] }

theorem c6_witness :
    revertE itemCfg item0 none = .error .noStore ∧
    revertE itemCfg item0 (some [(Val.vStr "sword", some wrongRec)]) =
      .error .uidMismatch ∧
    revertE itemCfg item0 (some [(Val.vStr "sword", some (serializeE itemCfg item0))]) =
      .ok { deserializeE item0 (serializeE itemCfg item0) with dirty := false } :=
  ⟨(c6_revert_checks_and_success itemCfg item0 [] wrongRec "I-999").1,
   (c6_revert_checks_and_success itemCfg item0
      [(Val.vStr "sword", some wrongRec)] wrongRec "I-999").2.1
      (by decide) (by decide) (by decide),
   (c6_revert_checks_and_success itemCfg item0
      [(Val.vStr "sword", some (serializeE itemCfg item0))]
      (serializeE itemCfg item0) "I-1").2.2 (by decide) (by decide)⟩

/-! ## Claim C3: delete versus exists -/

/-- The default, uid-keyed entity class with an empty schema. -/
def uidCfg : ClassCfg :=
  { name := "Entity", uidCode := "E", storeKey := "uid", defaults := [] }

/-- A concrete live uid-keyed entity. -/
def ent0 : EntityState :=
  { uid := "E-1", attrs := [], flags := [], tags := [],
    dirty := false, savable := true, active := false }

theorem storeHas_storeDel (s : StoreData) (k : Val) :
    storeHas (storeDel s k) k = false := by
  induction s with
  | nil => rfl
  | cons p rest ih =>
    unfold storeDel at ih ⊢
    by_cases h : p.1 = k
    · simp [List.filter_cons, h, ih]
    · have hb : (p.1 == k) = false := by simp [h]
      simp only [List.filter_cons, hb, Bool.not_false, if_true]
      unfold storeHas storeLookup
      simp only [h, if_false]
      exact ih

/-- Claim C3, counterexample: delete a live, stored entity and exists still
reports true for its key, because exists also scans the live instance
registry and delete never unregisters the instance.  The record itself is
gone from the store, but the class-level exists is not False as claimed. -/
theorem c3_counterexample_exists_after_delete :
    existsE uidCfg
      (deleteE uidCfg ent0 { cap := 512, entries := [] }
        (some [(Val.vStr "E-1", some (serializeE uidCfg ent0))])).2
      [ent0] (keyOf uidCfg ent0) = true := by
  decide

theorem existsE_some (cfg : ClassCfg) (s : StoreData)
    (instances : List EntityState) (k : Val) :
    existsE cfg (some s) instances k =
      (storeHas s k ||
        (if cfg.storeKey = "uid" then
          instances.any (fun e => Val.vStr e.uid == k)
        else
          instances.any (fun e => keyOf cfg e == k))) := rfl

theorem all_not_any {α : Type} (l : List α) (p : α → Bool)
    (h : l.all (fun x => !(p x)) = true) : l.any p = false := by
  rw [List.any_eq_false]
  intro e he
  have := List.all_eq_true.mp h e he
  simp at this
  simp [this]

/-- Claim C3, amended: after delete the durable store no longer holds the
entity's key, and exists returns False exactly once no live registered
instance carries that key; while the deleted entity itself stays live in
the instance registry, exists still returns True. -/
theorem c3_delete_clears_store (cfg : ClassCfg) (x : EntityState)
    (c : LRUCache) (s : StoreData) (instances : List EntityState)
    (hlive : (if cfg.storeKey = "uid" then
        instances.all (fun e => !(Val.vStr e.uid == keyOf cfg x))
      else
        instances.all (fun e => !(keyOf cfg e == keyOf cfg x))) = true) :
    (∀ s₂, (deleteE cfg x c (some s)).2 = some s₂ →
      storeHas s₂ (keyOf cfg x) = false) ∧
    existsE cfg (deleteE cfg x c (some s)).2 instances (keyOf cfg x) = false := by
  have hst : (deleteE cfg x c (some s)).2 =
      some (if storeHas s (keyOf cfg x) then storeDel s (keyOf cfg x) else s) := by
    unfold deleteE
    by_cases h : storeHas s (keyOf cfg x)
    · simp [h]
    · simp [h]
  have hgone : storeHas
      (if storeHas s (keyOf cfg x) then storeDel s (keyOf cfg x) else s)
      (keyOf cfg x) = false := by
    by_cases h : storeHas s (keyOf cfg x) = true
    · rw [if_pos h]
      exact storeHas_storeDel s (keyOf cfg x)
    · rw [if_neg h]
      cases hb : storeHas s (keyOf cfg x)
      · rfl
      · exact absurd hb h
  constructor
  · intro s₂ hs₂
    rw [hst] at hs₂
    cases hs₂
    exact hgone
  · rw [hst, existsE_some, hgone, Bool.false_or]
    by_cases hk : cfg.storeKey = "uid"
    · rw [if_pos hk]
      rw [if_pos hk] at hlive
      exact all_not_any instances _ hlive
    · rw [if_neg hk]
      rw [if_neg hk] at hlive
      exact all_not_any instances _ hlive

theorem c3_witness :
    (if uidCfg.storeKey = "uid" then
        ([] : List EntityState).all (fun e => !(Val.vStr e.uid == keyOf uidCfg ent0))
      else
        ([] : List EntityState).all (fun e => !(keyOf uidCfg e == keyOf uidCfg ent0))) = true ∧
    ((∀ s₂, (deleteE uidCfg ent0 { cap := 512, entries := [] }
        (some [(Val.vStr "E-1", some (serializeE uidCfg ent0))])).2 = some s₂ →
      storeHas s₂ (keyOf uidCfg ent0) = false) ∧
    existsE uidCfg (deleteE uidCfg ent0 { cap := 512, entries := [] }
        (some [(Val.vStr "E-1", some (serializeE uidCfg ent0))])).2 []
      (keyOf uidCfg ent0) = false) :=
  ⟨by decide,
   c3_delete_clears_store uidCfg ent0 { cap := 512, entries := [] }
     [(Val.vStr "E-1", some (serializeE uidCfg ent0))] [] (by decide)⟩

/-! ## Claim C5: clone -/

theorem alook_set_ne (l : List (String × Val)) (k a : String) (v : Val)
    (h : a ≠ k) :
    alook a (l.map (fun kv => if kv.1 = k then (k, v) else kv)) = alook a l := by
  induction l with
  | nil => rfl
  | cons p l' ih =>
    obtain ⟨p1, p2⟩ := p
    simp only [List.map_cons]
    by_cases hp : p1 = k
    · have hhead : (if (p1, p2).1 = k then (k, v) else (p1, p2)) = (k, v) := by
        simp [hp]
      rw [hhead]
      simp only [alook]
      have hka : ¬ (k = a) := fun hh => h hh.symm
      have hpa : ¬ (p1 = a) := by rw [hp]; exact hka
      rw [if_neg hka, if_neg hpa]
      exact ih
    · have hhead : (if (p1, p2).1 = k then (k, v) else (p1, p2)) = (p1, p2) := by
        simp [hp]
      rw [hhead]
      simp only [alook]
      by_cases ha : p1 = a
      · rw [if_pos ha, if_pos ha]
      · rw [if_neg ha, if_neg ha]
        exact ih

/-- Constructing a fresh entity from a serialized record whose uid was
stripped (the clone path) copies the attribute values, flags and tags and
draws a fresh UID from the generator. -/
theorem construct_stripped (cfg : ClassCfg) (x : EntityState) (clock ctr : Nat)
    (hkeys : keysOf x.attrs = keysOf cfg.defaults)
    (hnd : (keysOf cfg.defaults).Nodup)
    (hfl : x.flags.Nodup) :
    construct cfg (some { serializeE cfg x with ruid := none }) false true clock ctr =
      ({ uid := (make_uid cfg.uidCode clock ctr).1, attrs := x.attrs,
         flags := x.flags, tags := x.tags, dirty := false, savable := true,
         active := false },
       (make_uid cfg.uidCode clock ctr).2) := by
  unfold construct deserializeE serializeE
  simp only
  rw [blobDeserialize_full cfg.defaults x.attrs hkeys.symm (hkeys ▸ hnd),
    addUnique_nil x.flags hfl]
  simp

/-- Claim C5, counterexample: a successful clone leaves the durable store
untouched — clone performs no store write, so the store does not hold the
new entity's record under the new key afterwards; the record only reaches
the store on a later save.  Here the store is empty before the clone, the
clone succeeds, and the unchanged store still lacks the new key. -/
theorem c5_counterexample_clone_does_not_write_store :
    (cloneE itemCfg item0 (Val.vStr "sword2") (some []) 0 5).isOk = true ∧
    storeHas [] (Val.vStr "sword2") = false := by
  decide

/-- Claim C5, amended: with a configured store and a fresh new key, clone
returns a new entity whose uid is freshly generated and differs from the
source's, whose attribute values equal the source's except the storage-key
attribute, which is set to new_key; a new key already present in the store
fails with a duplicate-key error.  The store itself is not written by
clone; the cloned record reaches the store only on a later save. -/
theorem c5_clone_fresh_uid_same_attrs (cfg : ClassCfg) (x : EntityState)
    (newKey : Val) (s : StoreData) (clock ctr : Nat)
    (hks : cfg.storeKey ≠ "uid")
    (hkeys : keysOf x.attrs = keysOf cfg.defaults)
    (hnd : (keysOf cfg.defaults).Nodup)
    (hfl : x.flags.Nodup)
    (ht : ∃ t, x.uid = cfg.uidCode ++ "-" ++ int_to_base_n t ∧ t ≤ ctr) :
    (storeHas s newKey = true →
      cloneE cfg x newKey (some s) clock ctr = .error .dupKey) ∧
    (storeHas s newKey = false →
      cloneE cfg x newKey (some s) clock ctr = .ok
        ({ uid := (make_uid cfg.uidCode clock ctr).1,
           attrs := x.attrs.map (fun kv =>
             if kv.1 = cfg.storeKey then (cfg.storeKey, newKey) else kv),
           flags := x.flags, tags := x.tags, dirty := true, savable := true,
           active := false },
         (make_uid cfg.uidCode clock ctr).2) ∧
      (make_uid cfg.uidCode clock ctr).1 ≠ x.uid ∧
      (∀ a, a ≠ cfg.storeKey →
        alook a (x.attrs.map (fun kv =>
          if kv.1 = cfg.storeKey then (cfg.storeKey, newKey) else kv)) =
        alook a x.attrs)) := by
  constructor
  · intro hdup
    simp [cloneE, hdup]
  · intro hfree
    refine ⟨?_, ?_, ?_⟩
    · simp only [cloneE, hfree, Bool.false_eq_true, if_false,
        construct_stripped cfg x clock ctr hkeys hnd hfl, if_neg hks]
      rfl
    · obtain ⟨t, hx, hle⟩ := ht
      intro heq
      have hmk : (make_uid cfg.uidCode clock ctr).1 =
          cfg.uidCode ++ "-" ++ int_to_base_n (make_uid cfg.uidCode clock ctr).2 := rfl
      rw [hmk, hx] at heq
      have := uid_string_inj cfg.uidCode heq
      have hadv := make_uid_advances cfg.uidCode clock ctr
      omega
    · intro a ha
      exact alook_set_ne x.attrs cfg.storeKey a newKey ha

theorem c5_witness :
    itemCfg.storeKey ≠ "uid" ∧
    keysOf item0.attrs = keysOf itemCfg.defaults ∧
    (keysOf itemCfg.defaults).Nodup ∧ item0.flags.Nodup ∧
    (∃ t, item0.uid = itemCfg.uidCode ++ "-" ++ int_to_base_n t ∧ t ≤ 5) ∧
    ((storeHas [] (Val.vStr "sword2") = true →
      cloneE itemCfg item0 (Val.vStr "sword2") (some []) 0 5 = .error .dupKey) ∧
    (storeHas [] (Val.vStr "sword2") = false →
      cloneE itemCfg item0 (Val.vStr "sword2") (some []) 0 5 = .ok
        ({ uid := (make_uid itemCfg.uidCode 0 5).1,
           attrs := item0.attrs.map (fun kv =>
             if kv.1 = itemCfg.storeKey then (itemCfg.storeKey, Val.vStr "sword2") else kv),
           flags := item0.flags, tags := item0.tags, dirty := true, savable := true,
           active := false },
         (make_uid itemCfg.uidCode 0 5).2) ∧
      (make_uid itemCfg.uidCode 0 5).1 ≠ item0.uid ∧
      (∀ a, a ≠ itemCfg.storeKey →
        alook a (item0.attrs.map (fun kv =>
          if kv.1 = itemCfg.storeKey then (itemCfg.storeKey, Val.vStr "sword2") else kv)) =
        alook a item0.attrs))) :=
  ⟨by decide, by decide, by decide, by decide, ⟨1, by decide, by decide⟩,
   c5_clone_fresh_uid_same_attrs itemCfg item0 (Val.vStr "sword2") [] 0 5
     (by decide) (by decide) (by decide) (by decide) ⟨1, by decide, by decide⟩⟩

/-! ## Claim C7: cache eviction -/

/-- Claim C7: inserting a new key into a full cache evicts the least
recently used entry, invokes save on the evicted entity (the eviction
callback), removes the evicted key from the cache, and never raises: when
the evicted entity is not savable the save is a logged no-op and the store
is left untouched, while the entry is still evicted.  The duplicate-free
key hypothesis is the cache invariant (one entry per key). -/
theorem c7_eviction_saves_and_removes (cfg : ClassCfg) (c : LRUCache)
    (k : Val) (e : EntityState) (st : Option StoreData)
    (hfull : c.entries.length = c.cap) (hpos : 0 < c.cap)
    (hnew : cacheHas c k = false)
    (hnd : (c.entries.map Prod.fst).Nodup) :
    ∃ k0 e0 rest, c.entries = (k0, e0) :: rest ∧
      cacheInsert cfg c k e st =
        ({ c with entries := rest ++ [(k, e)] }, (saveE cfg e0 st).2) ∧
      ((rest ++ [(k, e)]).all (fun p => !(p.1 == k0)) = true) ∧
      (is_savable e0 st = false → (cacheInsert cfg c k e st).2 = st) := by
  cases hent : c.entries with
  | nil =>
    exfalso
    rw [hent] at hfull
    simp at hfull
    omega
  | cons p rest =>
    obtain ⟨k0, e0⟩ := p
    refine ⟨k0, e0, rest, rfl, ?_, ?_, ?_⟩
    · unfold cacheInsert
      rw [hnew]
      have hnotlt : ¬ (c.entries.length < c.cap) := by
        rw [hfull]
        omega
      simp only [Bool.false_eq_true, if_false, hnotlt]
      rw [hent]
    · rw [hent] at hnd
      unfold cacheHas at hnew
      rw [hent] at hnew
      simp only [List.map_cons, List.nodup_cons] at hnd
      rw [List.any_eq_false] at hnew
      have hkne : (k == k0) = false := by
        have h1 : ((k0, e0).1 == k) = false :=
          Bool.eq_false_iff.mpr (hnew (k0, e0) (by simp))
        simp only at h1
        rw [beq_eq_false_iff_ne] at h1
        rw [beq_eq_false_iff_ne]
        exact fun hh => h1 hh.symm
      rw [List.all_eq_true]
      intro p hp
      rw [List.mem_append] at hp
      rcases hp with hp | hp
      · have : p.1 ∈ rest.map Prod.fst := List.mem_map_of_mem Prod.fst hp
        have hne : p.1 ≠ k0 := fun hh => hnd.1 (hh ▸ this)
        simp [hne]
      · rw [List.mem_singleton] at hp
        subst hp
        simp only
        rw [hkne]
        rfl
    · intro hns
      unfold cacheInsert
      rw [hnew]
      have hnotlt : ¬ (c.entries.length < c.cap) := by
        rw [hfull]
        omega
      simp only [Bool.false_eq_true, if_false, hnotlt]
      rw [hent]
      simp only [saveE, hns, Bool.false_eq_true, if_false]

theorem c7_witness :
    ({ cap := 1, entries := [(Val.vStr "k0", ent0)] } : LRUCache).entries.length =
      ({ cap := 1, entries := [(Val.vStr "k0", ent0)] } : LRUCache).cap ∧
    0 < ({ cap := 1, entries := [(Val.vStr "k0", ent0)] } : LRUCache).cap ∧
    cacheHas { cap := 1, entries := [(Val.vStr "k0", ent0)] } (Val.vStr "k1") = false ∧
    (({ cap := 1, entries := [(Val.vStr "k0", ent0)] } : LRUCache).entries.map
      Prod.fst).Nodup ∧
    (∃ k0 e0 rest,
      ({ cap := 1, entries := [(Val.vStr "k0", ent0)] } : LRUCache).entries =
        (k0, e0) :: rest ∧
      cacheInsert uidCfg { cap := 1, entries := [(Val.vStr "k0", ent0)] }
          (Val.vStr "k1") item0 none =
        ({ cap := 1, entries := rest ++ [(Val.vStr "k1", item0)] },
         (saveE uidCfg e0 none).2) ∧
      ((rest ++ [(Val.vStr "k1", item0)]).all (fun p => !(p.1 == k0)) = true) ∧
      (is_savable e0 none = false →
        (cacheInsert uidCfg { cap := 1, entries := [(Val.vStr "k0", ent0)] }
          (Val.vStr "k1") item0 none).2 = none)) :=
  ⟨by decide, by decide, by decide, by decide,
   c7_eviction_saves_and_removes uidCfg
     { cap := 1, entries := [(Val.vStr "k0", ent0)] } (Val.vStr "k1") item0 none
     (by decide) (by decide) (by decide) (by decide)⟩

/-! ## Entity.find (entities.py lines 390-447) and Entity.reconstruct -/

/-- Result shape of Entity.find: a single entity-or-none when the limit is
exactly one, otherwise a list. -/
inductive FindResult where
  | one : Option EntityState → FindResult
  | many : List EntityState → FindResult
deriving DecidableEq, Repr

/-- The ENTITIES type registry, mapping class names to classes. -/
abbrev Registry := List (String × ClassCfg)

def regLookup (reg : Registry) (name : String) : Option ClassCfg :=
  match reg with
  | [] => none
  | (n, c) :: rest => if n = name then some c else regLookup rest name

/-- The attribute/value comparisons of one candidate against the requested
pairs, in order (getattr or dict get against the requested value). -/
def pairBools (pairs : List (String × Val)) (attrs : List (String × Val)) : List Bool :=
  pairs.map (fun p => alook p.1 attrs == some p.2)

/-- The match function handed to find: AND-all or OR-any over the
comparison list. -/
def matchEval (mAll : Bool) (bs : List Bool) : Bool :=
  if mAll then bs.all id else bs.any id

/-- Entity.reconstruct: KeyError when the record has no usable "type" or
the named type is not registered; otherwise construct an instance of the
registered class seeded with the record. -/
def reconstructE (reg : Registry) (r : Record) (clock ctr : Nat) :
    Except Err (EntityState × Nat) :=
  match r.rtype with
  | none => .error .keyError
  | some ty =>
    if ty = "" then .error .keyError
    else
      match regLookup reg ty with
      | none => .error .keyError
      | some cfg => .ok (construct cfg (some r) false true clock ctr)

/-- The cache pass of Entity.find: scan the live instances, collect
matches, break once the limit is reached (the breaking instance's key is
not recorded as checked, matching the source's loop), and record every
fully processed instance's key as checked. -/
def findCache (cfg : ClassCfg) (pairs : List (String × Val)) (mAll : Bool)
    (n : Nat) :
    List EntityState → List EntityState → List Val →
      List EntityState × List Val
  | [], found, checked => (found, checked)
  | e :: rest, found, checked =>
    if matchEval mAll (pairBools pairs e.attrs) then
      if n ≠ 0 ∧ n ≤ (found ++ [e]).length then (found ++ [e], checked)
      else findCache cfg pairs mAll n rest (found ++ [e]) (checked ++ [keyOf cfg e])
    else findCache cfg pairs mAll n rest found (checked ++ [keyOf cfg e])

/-- Clearing the dirty bit of a reconstructed entity, as find and load do
right after reconstruct. -/
def markClean (e : EntityState) : EntityState :=
  { e with dirty := false }

/-- The store pass of Entity.find: walk the store's keys, skip keys already
checked during the cache pass, treat unreadable records (pending deletion)
as absent, reconstruct and collect matching records (marked clean), and
stop at the limit.  A reconstruction failure propagates. -/
def findStore (reg : Registry) (pairs : List (String × Val)) (mAll : Bool)
    (n : Nat) (s : StoreData) (clock : Nat) :
    List Val → List Val → List EntityState → Nat →
      Except Err (List EntityState × Nat)
  | [], _, found, ctr => .ok (found, ctr)
  | key :: rest, checked, found, ctr =>
    if checked.contains key then
      findStore reg pairs mAll n s clock rest checked found ctr
    else
      match storeGet s key with
      | none => findStore reg pairs mAll n s clock rest checked found ctr
      | some r =>
        if matchEval mAll (pairBools pairs r.rattrs) then
          match reconstructE reg r clock ctr with
          | .error err => .error err
          | .ok p =>
            if n ≠ 0 ∧ n ≤ (found ++ [markClean p.1]).length then
              .ok (found ++ [markClean p.1], p.2)
            else
              findStore reg pairs mAll n s clock rest checked
                (found ++ [markClean p.1]) p.2
        else findStore reg pairs mAll n s clock rest checked found ctr

/-- The cache pass guarded by the cache flag. -/
def cachePhase (cfg : ClassCfg) (pairs : List (String × Val)) (mAll : Bool)
    (n : Nat) (cacheFlag : Bool) (instances : List EntityState) :
    List EntityState × List Val :=
  if cacheFlag then findCache cfg pairs mAll n instances [] [] else ([], [])

/-- Final result dispatch of Entity.find: a single entity-or-none for a
limit of one, else the collected list. -/
def findFinish (n : Nat) (r : Except Err (List EntityState × Nat)) :
    Except Err (FindResult × Nat) :=
  match r with
  | .error err => .error err
  | .ok (found, ctr') =>
    .ok ((if n = 1 then FindResult.one found.head? else FindResult.many found), ctr')

/-- Entity.find: the cache pass when requested; then, when the store flag
is set and the limit is not yet reached, the store pass — which
dereferences cls._store and therefore raises AttributeError when the class
has no store configured; finally the result dispatch on the limit. -/
def findE (cfg : ClassCfg) (reg : Registry) (pairs : List (String × Val))
    (cacheFlag storeFlag : Bool) (mAll : Bool) (n : Nat)
    (instances : List EntityState) (st : Option StoreData) (clock ctr : Nat) :
    Except Err (FindResult × Nat) :=
  findFinish n
    (if storeFlag ∧ (n = 0 ∨ (cachePhase cfg pairs mAll n cacheFlag instances).1.length < n) then
      match st with
      | none => .error .attrError
      | some s =>
        findStore reg pairs mAll n s clock (storeKeys s)
          (cachePhase cfg pairs mAll n cacheFlag instances).2
          (cachePhase cfg pairs mAll n cacheFlag instances).1 ctr
    else .ok ((cachePhase cfg pairs mAll n cacheFlag instances).1, ctr))

/-- Entities carried by a find result. -/
def foundList : FindResult → List EntityState
  | .one o => o.toList
  | .many l => l

/-- Claim C10, counterexample: with no store configured and store=True (the
default), a find call with limit 1 whose cache pass already satisfies the
limit returns the cache result normally instead of raising: an empty pair
list under AND matches everything, so the single live instance fills the
limit and the store phase — the only place the absent store is
dereferenced — is skipped. -/
theorem c10_counterexample_cache_hit_skips_store :
    findE itemCfg [("Item", itemCfg)] [] true true true 1 [item0] none 0 0 =
      .ok (FindResult.one (some item0), 0) := by
  rfl

/-- Claim C10, amended: a configured store is a precondition of find's
store-scan phase only: whenever that phase is reached — always when the
limit is 0, and otherwise exactly when the cache pass left the limit
unmet — find with store=True and no configured store fails by
dereferencing the absent store (AttributeError); when the cache pass
already met the limit the phase is skipped and no error occurs. -/
theorem c10_find_without_store_errors (cfg : ClassCfg) (reg : Registry)
    (pairs : List (String × Val)) (cacheFlag mAll : Bool) (n : Nat)
    (instances : List EntityState) (clock ctr : Nat)
    (h : n = 0 ∨ (cachePhase cfg pairs mAll n cacheFlag instances).1.length < n) :
    findE cfg reg pairs cacheFlag true mAll n instances none clock ctr =
      .error .attrError := by
  unfold findE
  rw [if_pos ⟨rfl, h⟩]
  rfl

theorem c10_witness :
    ((0 : Nat) = 0 ∨ (cachePhase uidCfg [] true 0 true []).1.length < 0) ∧
    findE uidCfg [] [] true true true 0 [] none 0 0 = .error .attrError :=
  ⟨Or.inl rfl,
   c10_find_without_store_errors uidCfg [] [] true true 0 [] 0 0 (Or.inl rfl)⟩

/-! ## Claim C8: find match semantics -/

theorem storeGet_mem (s : StoreData) (k : Val) (r : Record)
    (h : storeGet s k = some r) : (k, some r) ∈ s := by
  induction s with
  | nil => simp [storeGet, storeLookup] at h
  | cons p rest ih =>
    obtain ⟨k', v⟩ := p
    unfold storeGet storeLookup at h
    by_cases hk : k' = k
    · rw [if_pos hk] at h
      cases v with
      | none => simp at h
      | some r' =>
        simp only [Option.some.injEq] at h
        subst h
        subst hk
        exact List.mem_cons_self _ _
    · rw [if_neg hk] at h
      exact List.mem_cons_of_mem _ (ih h)

theorem deserializeE_attrs (e : EntityState) (r : Record) :
    (deserializeE e r).attrs = blobDeserialize e.attrs r.rattrs := by
  unfold deserializeE
  cases r.ruid <;> cases r.rflags <;> cases r.rtags <;> rfl

theorem construct_attrs (cfg : ClassCfg) (r : Record) (active savable : Bool)
    (clock ctr : Nat) :
    (construct cfg (some r) active savable clock ctr).1.attrs =
      blobDeserialize cfg.defaults r.rattrs := by
  unfold construct
  by_cases h : r.ruid.isSome = true
  · simp only [h, if_true]
    rw [deserializeE_attrs]
  · simp only [h, Bool.false_eq_true, if_false]
    rw [deserializeE_attrs]

theorem mem_head?_toList (l : List EntityState) (e : EntityState)
    (he : e ∈ l.head?.toList) : e ∈ l := by
  cases l <;> simp_all

theorem head?_toList_len (l : List EntityState) : l.head?.toList.length ≤ 1 := by
  cases l <;> simp

theorem findCache_sound (cfg : ClassCfg) (pairs : List (String × Val))
    (mAll : Bool) (n : Nat) :
    ∀ (lst found : List EntityState) (checked : List Val),
    (∀ e ∈ found, matchEval mAll (pairBools pairs e.attrs) = true) →
    ∀ e ∈ (findCache cfg pairs mAll n lst found checked).1,
      matchEval mAll (pairBools pairs e.attrs) = true := by
  intro lst
  induction lst with
  | nil =>
    intro found checked hf e he
    exact hf e he
  | cons x rest ih =>
    intro found checked hf e he
    unfold findCache at he
    by_cases hm : matchEval mAll (pairBools pairs x.attrs) = true
    · rw [if_pos hm] at he
      have hsnoc : ∀ e' ∈ found ++ [x], matchEval mAll (pairBools pairs e'.attrs) = true := by
        intro e' he'
        rcases List.mem_append.mp he' with h1 | h1
        · exact hf e' h1
        · rw [List.mem_singleton] at h1
          subst h1
          exact hm
      by_cases hbrk : n ≠ 0 ∧ n ≤ (found ++ [x]).length
      · rw [if_pos hbrk] at he
        exact hsnoc e he
      · rw [if_neg hbrk] at he
        exact ih (found ++ [x]) _ hsnoc e he
    · rw [if_neg hm] at he
      exact ih found _ hf e he

theorem findCache_len (cfg : ClassCfg) (pairs : List (String × Val))
    (mAll : Bool) (n : Nat) :
    ∀ (lst found : List EntityState) (checked : List Val),
    n ≠ 0 → found.length < n →
    (findCache cfg pairs mAll n lst found checked).1.length ≤ n := by
  intro lst
  induction lst with
  | nil =>
    intro found checked hn hlt
    exact Nat.le_of_lt hlt
  | cons x rest ih =>
    intro found checked hn hlt
    unfold findCache
    by_cases hm : matchEval mAll (pairBools pairs x.attrs) = true
    · rw [if_pos hm]
      by_cases hbrk : n ≠ 0 ∧ n ≤ (found ++ [x]).length
      · rw [if_pos hbrk]
        simp only [List.length_append, List.length_singleton]
        omega
      · rw [if_neg hbrk]
        apply ih _ _ hn
        simp only [List.length_append, List.length_singleton] at hbrk ⊢
        omega
    · rw [if_neg hm]
      exact ih found _ hn hlt

theorem findStore_spec (cfg : ClassCfg) (reg : Registry)
    (pairs : List (String × Val)) (mAll : Bool) (n : Nat) (s : StoreData)
    (clock : Nat)
    (hreg : regLookup reg cfg.name = some cfg)
    (hname : cfg.name ≠ "")
    (hnd : (keysOf cfg.defaults).Nodup)
    (hwf : ∀ p ∈ s, ∀ r : Record, p.2 = some r →
      r.rtype = some cfg.name ∧ keysOf r.rattrs = keysOf cfg.defaults) :
    ∀ (keys checked : List Val) (found : List EntityState) (ctr : Nat),
    (∀ e ∈ found, matchEval mAll (pairBools pairs e.attrs) = true) →
    (n = 0 ∨ found.length < n) →
    ∃ found' ctr',
      findStore reg pairs mAll n s clock keys checked found ctr = .ok (found', ctr') ∧
      (∀ e ∈ found', matchEval mAll (pairBools pairs e.attrs) = true) ∧
      (n ≠ 0 → found'.length ≤ n) := by
  intro keys
  induction keys with
  | nil =>
    intro checked found ctr hf hlen
    refine ⟨found, ctr, rfl, hf, ?_⟩
    intro hn
    rcases hlen with h | h
    · exact absurd h hn
    · exact Nat.le_of_lt h
  | cons key rest ih =>
    intro checked found ctr hf hlen
    unfold findStore
    by_cases hchk : checked.contains key = true
    · rw [if_pos hchk]
      exact ih checked found ctr hf hlen
    · rw [if_neg hchk]
      cases hget : storeGet s key with
      | none => exact ih checked found ctr hf hlen
      | some r =>
        obtain ⟨hrt, hrk⟩ := hwf (key, some r) (storeGet_mem s key r hget) r rfl
        dsimp only
        by_cases hm : matchEval mAll (pairBools pairs r.rattrs) = true
        · rw [if_pos hm]
          have hrec : reconstructE reg r clock ctr =
              .ok (construct cfg (some r) false true clock ctr) := by
            unfold reconstructE
            rw [hrt]
            dsimp only
            rw [if_neg hname, hreg]
          rw [hrec]
          dsimp only
          have hattrs :
              (markClean (construct cfg (some r) false true clock ctr).1).attrs =
                r.rattrs := by
            show (construct cfg (some r) false true clock ctr).1.attrs = r.rattrs
            rw [construct_attrs]
            exact blobDeserialize_full cfg.defaults r.rattrs hrk.symm hnd
          have hsnoc : ∀ e' ∈ found ++
              [markClean (construct cfg (some r) false true clock ctr).1],
              matchEval mAll (pairBools pairs e'.attrs) = true := by
            intro e' he'
            rcases List.mem_append.mp he' with h1 | h1
            · exact hf e' h1
            · rw [List.mem_singleton] at h1
              subst h1
              rw [hattrs]
              exact hm
          by_cases hbrk : n ≠ 0 ∧ n ≤ (found ++
              [markClean (construct cfg (some r) false true clock ctr).1]).length
          · rw [if_pos hbrk]
            refine ⟨_, _, rfl, hsnoc, ?_⟩
            intro hn
            simp only [List.length_append, List.length_singleton]
            rcases hlen with h | h
            · exact absurd h hn
            · omega
          · rw [if_neg hbrk]
            apply ih _ _ _ hsnoc
            simp only [List.length_append, List.length_singleton] at hbrk ⊢
            omega
        · rw [if_neg hm]
          exact ih checked found ctr hf hlen

/-- Claim C8: find with match=ALL returns only entities for which every
requested pair matches, and with match=ANY only entities for which at least
one pair matches (matchEval packages both: AND-all when mAll, OR-any
otherwise, over the comparison list, exactly as the source applies the
match function); find with limit 1 returns a single entity-or-none shape
and never more than one result, any other limit returns a list, and a
nonzero limit bounds the result count.  The hypotheses are the system
invariants: the class is registered under its own nonempty name and every
readable stored record carries that type name and a schema-conformant,
duplicate-free field set. -/
theorem c8_find_match_and_limit (cfg : ClassCfg) (reg : Registry)
    (pairs : List (String × Val)) (mAll : Bool) (n : Nat)
    (instances : List EntityState) (s : StoreData) (clock ctr : Nat)
    (hreg : regLookup reg cfg.name = some cfg)
    (hname : cfg.name ≠ "")
    (hnd : (keysOf cfg.defaults).Nodup)
    (hwf : ∀ p ∈ s, ∀ r : Record, p.2 = some r →
      r.rtype = some cfg.name ∧ keysOf r.rattrs = keysOf cfg.defaults) :
    ∃ res ctr',
      findE cfg reg pairs true true mAll n instances (some s) clock ctr =
        .ok (res, ctr') ∧
      (∀ e ∈ foundList res, matchEval mAll (pairBools pairs e.attrs) = true) ∧
      (n = 1 → ∃ o, res = FindResult.one o) ∧
      (n ≠ 1 → ∃ l, res = FindResult.many l) ∧
      (n ≠ 0 → (foundList res).length ≤ n) := by
  have hc_sound : ∀ e ∈ (cachePhase cfg pairs mAll n true instances).1,
      matchEval mAll (pairBools pairs e.attrs) = true := by
    unfold cachePhase
    rw [if_pos rfl]
    exact findCache_sound cfg pairs mAll n instances [] []
      (by intro e he; cases he)
  unfold findE
  by_cases hcond : n = 0 ∨ (cachePhase cfg pairs mAll n true instances).1.length < n
  · rw [if_pos ⟨rfl, hcond⟩]
    dsimp only
    obtain ⟨found', ctr', heq, hsound, hlen⟩ :=
      findStore_spec cfg reg pairs mAll n s clock hreg hname hnd hwf
        (storeKeys s) (cachePhase cfg pairs mAll n true instances).2
        (cachePhase cfg pairs mAll n true instances).1 ctr hc_sound hcond
    rw [heq]
    simp only [findFinish]
    by_cases hn1 : n = 1
    · rw [if_pos hn1]
      refine ⟨FindResult.one found'.head?, ctr', rfl, ?_, fun _ => ⟨_, rfl⟩,
        fun h1 => absurd hn1 h1, ?_⟩
      · intro e he
        exact hsound e (mem_head?_toList found' e he)
      · intro _
        subst hn1
        simpa [foundList] using head?_toList_len found'
    · rw [if_neg hn1]
      refine ⟨FindResult.many found', ctr', rfl, hsound,
        fun h1 => absurd h1 hn1, fun _ => ⟨found', rfl⟩, ?_⟩
      intro hn0
      exact hlen hn0
  · rw [if_neg (by rintro ⟨_, hc⟩; exact hcond hc)]
    simp only [findFinish]
    have hn0 : n ≠ 0 := by
      intro h
      exact hcond (Or.inl h)
    have hge : ¬ ((cachePhase cfg pairs mAll n true instances).1.length < n) := by
      intro h
      exact hcond (Or.inr h)
    have hclen : (cachePhase cfg pairs mAll n true instances).1.length ≤ n := by
      unfold cachePhase
      rw [if_pos rfl]
      exact findCache_len cfg pairs mAll n instances [] [] hn0
        (Nat.pos_of_ne_zero hn0)
    by_cases hn1 : n = 1
    · rw [if_pos hn1]
      refine ⟨FindResult.one (cachePhase cfg pairs mAll n true instances).1.head?,
        ctr, rfl, ?_, fun _ => ⟨_, rfl⟩, fun h1 => absurd hn1 h1, ?_⟩
      · intro e he
        exact hc_sound e (mem_head?_toList _ e he)
      · intro _
        subst hn1
        simpa [foundList] using
          head?_toList_len (cachePhase cfg pairs mAll 1 true instances).1
    · rw [if_neg hn1]
      exact ⟨FindResult.many (cachePhase cfg pairs mAll n true instances).1,
        ctr, rfl, hc_sound, fun h1 => absurd h1 hn1,
        fun _ => ⟨_, rfl⟩, fun _ => hclen⟩

theorem c8_witness :
    regLookup [("Item", itemCfg)] itemCfg.name = some itemCfg ∧
    itemCfg.name ≠ "" ∧
    (keysOf itemCfg.defaults).Nodup ∧
    (∀ p ∈ [(Val.vStr "sword", some (serializeE itemCfg item0))],
      ∀ r : Record, p.2 = some r →
        r.rtype = some itemCfg.name ∧ keysOf r.rattrs = keysOf itemCfg.defaults) ∧
    (∃ res ctr',
      findE itemCfg [("Item", itemCfg)] [("name", Val.vStr "sword")] true true
        true 0 [] (some [(Val.vStr "sword", some (serializeE itemCfg item0))]) 0 0 =
        .ok (res, ctr') ∧
      (∀ e ∈ foundList res,
        matchEval true (pairBools [("name", Val.vStr "sword")] e.attrs) = true) ∧
      ((0 : Nat) = 1 → ∃ o, res = FindResult.one o) ∧
      ((0 : Nat) ≠ 1 → ∃ l, res = FindResult.many l) ∧
      ((0 : Nat) ≠ 0 → (foundList res).length ≤ 0)) :=
  ⟨by decide, by decide, by decide,
   (by
    intro p hp r hr
    rw [List.mem_singleton] at hp
    subst hp
    simp only at hr
    injection hr with hr2
    subst hr2
    exact ⟨rfl, rfl⟩),
   c8_find_match_and_limit itemCfg [("Item", itemCfg)]
     [("name", Val.vStr "sword")] true 0 []
     [(Val.vStr "sword", some (serializeE itemCfg item0))] 0 0
     (by decide) (by decide) (by decide)
     (by
      intro p hp r hr
      rw [List.mem_singleton] at hp
      subst hp
      simp only at hr
      injection hr with hr2
      subst hr2
      exact ⟨rfl, rfl⟩)⟩

/-! ## Claim C9: composed-schema construction (entities.py lines 195-211)

The recursive _build_base_blob walk is embedded over an abstract class
hierarchy: classes are indices into a list, each class holding its declared
base-class indices (Python guarantees bases are created before subclasses,
so bases have strictly smaller indices), its own registered field names (a
dict, so duplicate-free and merged by key), and whether it is an Entity
subclass.  The walk recurses into every base first, then merges the class's
own field table once, guarded by the visited set. -/

structure ClassDef where
  bases : List Nat
  own : List String
  isEnt : Bool
deriving DecidableEq, Repr

abbrev Hier := List ClassDef

def cdAt (H : Hier) (i : Nat) : ClassDef :=
  H.getD i ⟨[], [], false⟩

def entAt (H : Hier) (i : Nat) : Bool :=
  (cdAt H i).isEnt

/-- The accumulator of _build_base_blob: the blob under construction (its
field-name table, duplicate-free like a dict) and the visited set. -/
structure BuildSt where
  blob : List String
  checked : List Nat
deriving DecidableEq, Repr

/-- The recursive walk of _build_base_blob, with fuel bounding the
recursion depth (any fuel above the class index is enough, because bases
have strictly smaller indices in a well-formed hierarchy). -/
def buildBlob (H : Hier) : Nat → Nat → BuildSt → BuildSt
  | 0, _, st => st
  | fuel + 1, i, st =>
    let st1 := (cdAt H i).bases.foldl (fun s b => buildBlob H fuel b s) st
    if entAt H i && !(st1.checked.contains i) then
      ⟨addUnique st1.blob (cdAt H i).own, i :: st1.checked⟩
    else st1

/-- The composed schema built at construction time: the walk started from
the concrete class with the blob seeded from that class's own blob class
and an empty visited set. -/
def composedBlob (H : Hier) (i : Nat) : BuildSt :=
  buildBlob H (i + 1) i ⟨addUnique [] (cdAt H i).own, []⟩

/-- Well-formedness of the hierarchy: every base index is strictly smaller
than its subclass's index. -/
abbrev WFH (H : Hier) : Prop :=
  ∀ i ∈ List.range H.length, ∀ b ∈ (cdAt H i).bases, b < i

/-- Ancestor relation: reflexive-transitive closure of the declared bases. -/
inductive ReachP (H : Hier) : Nat → Nat → Prop where
  | refl (i : Nat) : ReachP H i i
  | step (i b j : Nat) : b ∈ (cdAt H i).bases → ReachP H b j → ReachP H i j

theorem wfh_all (H : Hier) (h : WFH H) : ∀ i, ∀ b ∈ (cdAt H i).bases, b < i := by
  intro i b hb
  by_cases hi : i < H.length
  · exact h i (List.mem_range.mpr hi) b hb
  · exfalso
    unfold cdAt at hb
    rw [List.getD_eq_default] at hb
    · cases hb
    · exact Nat.le_of_not_lt hi

theorem reach_cases {H : Hier} {i j : Nat} (h : ReachP H i j) :
    i = j ∨ ∃ b ∈ (cdAt H i).bases, ReachP H b j := by
  cases h with
  | refl => exact Or.inl rfl
  | step i b j hb hr => exact Or.inr ⟨b, hb, hr⟩

theorem reach_le {H : Hier} (hwf : ∀ i, ∀ b ∈ (cdAt H i).bases, b < i)
    {i j : Nat} (h : ReachP H i j) : j ≤ i := by
  induction h with
  | refl => exact Nat.le_refl _
  | step i b j hb _ ihb => exact Nat.le_trans ihb (Nat.le_of_lt (hwf i b hb))

theorem contains_false_not_mem {l : List String} {a : String}
    (h : l.contains a = false) : a ∉ l := by
  intro hm
  have h2 : l.contains a = true := List.elem_iff.mpr hm
  rw [h2] at h
  cases h

theorem contains_false_not_mem_nat {l : List Nat} {a : Nat}
    (h : l.contains a = false) : a ∉ l := by
  intro hm
  have h2 : l.contains a = true := List.elem_iff.mpr hm
  rw [h2] at h
  cases h

theorem addUnique_mem (new' : List String) :
    ∀ (cur : List String) (f : String),
      f ∈ addUnique cur new' ↔ (f ∈ cur ∨ f ∈ new') := by
  induction new' with
  | nil =>
    intro cur f
    simp [addUnique]
  | cons g gs ih =>
    intro cur f
    show f ∈ addUnique (if cur.contains g then cur else cur ++ [g]) gs ↔ _
    by_cases hc : cur.contains g = true
    · rw [if_pos hc]
      rw [ih cur f]
      have hg : g ∈ cur := List.elem_iff.mp hc
      constructor
      · rintro (h | h)
        · exact Or.inl h
        · exact Or.inr (by simp [h])
      · rintro (h | h)
        · exact Or.inl h
        · rw [List.mem_cons] at h
          rcases h with h | h
          · exact Or.inl (h ▸ hg)
          · exact Or.inr h
    · rw [if_neg hc]
      rw [ih (cur ++ [g]) f]
      simp only [List.mem_append, List.mem_singleton, List.mem_cons]
      tauto

theorem addUnique_nodup (new' : List String) :
    ∀ cur : List String, cur.Nodup → (addUnique cur new').Nodup := by
  induction new' with
  | nil =>
    intro cur h
    exact h
  | cons g gs ih =>
    intro cur h
    show (addUnique (if cur.contains g then cur else cur ++ [g]) gs).Nodup
    by_cases hc : cur.contains g = true
    · rw [if_pos hc]
      exact ih cur h
    · rw [if_neg hc]
      apply ih
      have hg : g ∉ cur := contains_false_not_mem (Bool.eq_false_iff.mpr hc)
      simp [List.nodup_append, h, hg]

theorem buildBlob_spec (H : Hier)
    (hwf : ∀ i, ∀ b ∈ (cdAt H i).bases, b < i) :
    ∀ fuel i st, i < fuel →
      ((∀ j, j ∈ (buildBlob H fuel i st).checked ↔
          (j ∈ st.checked ∨ (ReachP H i j ∧ entAt H j = true))) ∧
       (st.checked.Nodup → (buildBlob H fuel i st).checked.Nodup) ∧
       (st.blob.Nodup → (buildBlob H fuel i st).blob.Nodup) ∧
       (∀ f, f ∈ (buildBlob H fuel i st).blob ↔
          (f ∈ st.blob ∨ ∃ j, ReachP H i j ∧ entAt H j = true ∧
            j ∉ st.checked ∧ f ∈ (cdAt H j).own))) := by
  intro fuel
  induction fuel with
  | zero =>
    intro i st h
    omega
  | succ fuel ih =>
    intro i st hi
    have hfold : ∀ L : List Nat, (∀ b ∈ L, b < fuel) → ∀ st0 : BuildSt,
        ((∀ j, j ∈ (L.foldl (fun s b => buildBlob H fuel b s) st0).checked ↔
            (j ∈ st0.checked ∨ ∃ b ∈ L, ReachP H b j ∧ entAt H j = true)) ∧
         (st0.checked.Nodup →
            (L.foldl (fun s b => buildBlob H fuel b s) st0).checked.Nodup) ∧
         (st0.blob.Nodup →
            (L.foldl (fun s b => buildBlob H fuel b s) st0).blob.Nodup) ∧
         (∀ f, f ∈ (L.foldl (fun s b => buildBlob H fuel b s) st0).blob ↔
            (f ∈ st0.blob ∨ ∃ j, (∃ b ∈ L, ReachP H b j) ∧ entAt H j = true ∧
              j ∉ st0.checked ∧ f ∈ (cdAt H j).own))) := by
      intro L
      induction L with
      | nil =>
        intro _ st0
        refine ⟨?_, fun h => h, fun h => h, ?_⟩
        · intro j
          simp
        · intro f
          simp
      | cons b L' ihL =>
        intro hL st0
        have hb : b < fuel := hL b (by simp)
        have hL' : ∀ b' ∈ L', b' < fuel := fun b' hb' => hL b' (by simp [hb'])
        obtain ⟨h1c, h1n, h1bn, h1b⟩ := ih b st0 hb
        obtain ⟨h2c, h2n, h2bn, h2b⟩ := ihL hL' (buildBlob H fuel b st0)
        rw [List.foldl_cons]
        refine ⟨?_, ?_, ?_, ?_⟩
        · intro j
          rw [h2c j, h1c j]
          constructor
          · rintro ((hj | ⟨hr, he⟩) | ⟨b', hb', hr, he⟩)
            · exact Or.inl hj
            · exact Or.inr ⟨b, by simp, hr, he⟩
            · exact Or.inr ⟨b', by simp [hb'], hr, he⟩
          · rintro (hj | ⟨b', hb', hr, he⟩)
            · exact Or.inl (Or.inl hj)
            · rw [List.mem_cons] at hb'
              rcases hb' with hb' | hb'
              · subst hb'
                exact Or.inl (Or.inr ⟨hr, he⟩)
              · exact Or.inr ⟨b', hb', hr, he⟩
        · intro hnd
          exact h2n (h1n hnd)
        · intro hnd
          exact h2bn (h1bn hnd)
        · intro f
          rw [h2b f, h1b f]
          constructor
          · rintro ((hf | ⟨j, hr, he, hnc, hf⟩) | ⟨j, ⟨b', hb', hr⟩, he, hnc1, hf⟩)
            · exact Or.inl hf
            · exact Or.inr ⟨j, ⟨b, by simp, hr⟩, he, hnc, hf⟩
            · have hnc : j ∉ st0.checked := fun hj => hnc1 ((h1c j).mpr (Or.inl hj))
              exact Or.inr ⟨j, ⟨b', by simp [hb'], hr⟩, he, hnc, hf⟩
          · rintro (hf | ⟨j, ⟨b', hb', hr⟩, he, hnc, hf⟩)
            · exact Or.inl (Or.inl hf)
            · rw [List.mem_cons] at hb'
              rcases hb' with hb' | hb'
              · subst hb'
                exact Or.inl (Or.inr ⟨j, hr, he, hnc, hf⟩)
              · by_cases hj1 : j ∈ (buildBlob H fuel b st0).checked
                · rcases (h1c j).mp hj1 with hj | ⟨hrb, heb⟩
                  · exact absurd hj hnc
                  · exact Or.inl (Or.inr ⟨j, hrb, heb, hnc, hf⟩)
                · exact Or.inr ⟨j, ⟨b', hb', hr⟩, he, hj1, hf⟩
    have hbases : ∀ b ∈ (cdAt H i).bases, b < fuel := by
      intro b hbm
      have := hwf i b hbm
      omega
    obtain ⟨hfc, hfn, hfbn, hfb⟩ := hfold (cdAt H i).bases hbases st
    show _ ∧ _ ∧ _ ∧ _
    unfold buildBlob
    set st1 := (cdAt H i).bases.foldl (fun s b => buildBlob H fuel b s) st with hst1
    by_cases hcase : (entAt H i && !(st1.checked.contains i)) = true
    · rw [if_pos hcase]
      rw [Bool.and_eq_true] at hcase
      have hent : entAt H i = true := hcase.1
      have hnotin : i ∉ st1.checked := by
        apply contains_false_not_mem_nat
        have hc2 := hcase.2
        cases hcb : st1.checked.contains i
        · rfl
        · rw [hcb] at hc2
          simp at hc2
      refine ⟨?_, ?_, ?_, ?_⟩
      · intro j
        show j ∈ i :: st1.checked ↔ _
        rw [List.mem_cons, hfc j]
        constructor
        · rintro (hj | hj | ⟨b', hb', hr, he⟩)
          · subst hj
            exact Or.inr ⟨ReachP.refl j, hent⟩
          · exact Or.inl hj
          · exact Or.inr ⟨ReachP.step i b' j hb' hr, he⟩
        · rintro (hj | ⟨hr, he⟩)
          · exact Or.inr (Or.inl hj)
          · rcases reach_cases hr with hij | ⟨b', hb', hr'⟩
            · exact Or.inl hij.symm
            · exact Or.inr (Or.inr ⟨b', hb', hr', he⟩)
      · intro hnd
        show (i :: st1.checked).Nodup
        rw [List.nodup_cons]
        exact ⟨hnotin, hfn hnd⟩
      · intro hnd
        show (addUnique st1.blob (cdAt H i).own).Nodup
        exact addUnique_nodup _ _ (hfbn hnd)
      · intro f
        show f ∈ addUnique st1.blob (cdAt H i).own ↔ _
        rw [addUnique_mem, hfb f]
        constructor
        · rintro ((hf | ⟨j, ⟨b', hb', hr⟩, he, hnc, hf⟩) | hf)
          · exact Or.inl hf
          · exact Or.inr ⟨j, ReachP.step i b' j hb' hr, he, hnc, hf⟩
          · refine Or.inr ⟨i, ReachP.refl i, hent, ?_, hf⟩
            intro hic
            exact hnotin ((hfc i).mpr (Or.inl hic))
        · rintro (hf | ⟨j, hr, he, hnc, hf⟩)
          · exact Or.inl (Or.inl hf)
          · rcases reach_cases hr with hij | ⟨b', hb', hr'⟩
            · subst hij
              exact Or.inr hf
            · exact Or.inl (Or.inr ⟨j, ⟨b', hb', hr'⟩, he, hnc, hf⟩)
    · rw [if_neg hcase]
      have hside : entAt H i = false ∨ i ∈ st1.checked := by
        cases hE : entAt H i
        · exact Or.inl rfl
        · cases hcb : st1.checked.contains i
          · exfalso
            apply hcase
            rw [Bool.and_eq_true]
            refine ⟨hE, ?_⟩
            rw [hcb]
            rfl
          · have hcb2 : st1.checked.elem i = true := hcb
            exact Or.inr (List.elem_iff.mp hcb2)
      have hichk : ∀ hent : entAt H i = true, i ∈ st1.checked := by
        intro hent
        rcases hside with h | h
        · rw [hent] at h
          cases h
        · exact h
      refine ⟨?_, hfn, hfbn, ?_⟩
      · intro j
        rw [hfc j]
        constructor
        · rintro (hj | ⟨b', hb', hr, he⟩)
          · exact Or.inl hj
          · exact Or.inr ⟨ReachP.step i b' j hb' hr, he⟩
        · rintro (hj | ⟨hr, he⟩)
          · exact Or.inl hj
          · rcases reach_cases hr with hij | ⟨b', hb', hr'⟩
            · subst hij
              exact (hfc i).mp (hichk he)
            · exact Or.inr ⟨b', hb', hr', he⟩
      · intro f
        rw [hfb f]
        constructor
        · rintro (hf | ⟨j, ⟨b', hb', hr⟩, he, hnc, hf⟩)
          · exact Or.inl hf
          · exact Or.inr ⟨j, ReachP.step i b' j hb' hr, he, hnc, hf⟩
        · rintro (hf | ⟨j, hr, he, hnc, hf⟩)
          · exact Or.inl hf
          · rcases reach_cases hr with hij | ⟨b', hb', hr'⟩
            · exfalso
              have he' : entAt H i = true := by rw [hij]; exact he
              rcases (hfc i).mp (hichk he') with hj | ⟨b', hb', hrb, heb⟩
              · rw [hij] at hj
                exact hnc hj
              · have hle := reach_le hwf hrb
                have hlt := hwf i b' hb'
                omega
            · exact Or.inr ⟨j, ⟨b', hb', hr'⟩, he, hnc, hf⟩

/-- Claim C9: for a well-formed hierarchy and a concrete entity class i,
the composed schema built at construction time visits each ancestor exactly
once (the visited list is duplicate-free and holds exactly the entity
ancestors of i), and its field table is duplicate-free and contains exactly
the field names declared across the full ancestor lineage — regardless of
diamond inheritance making an ancestor reachable along multiple base-class
paths. -/
theorem c9_composed_schema_is_lineage_union (H : Hier) (i : Nat)
    (hwf : WFH H) (hent : entAt H i = true) :
    (composedBlob H i).checked.Nodup ∧
    (∀ j, j ∈ (composedBlob H i).checked ↔ (ReachP H i j ∧ entAt H j = true)) ∧
    (composedBlob H i).blob.Nodup ∧
    (∀ f, f ∈ (composedBlob H i).blob ↔
      ∃ j, ReachP H i j ∧ entAt H j = true ∧ f ∈ (cdAt H j).own) := by
  have hwf' := wfh_all H hwf
  obtain ⟨hc, hn, hbn, hb⟩ :=
    buildBlob_spec H hwf' (i + 1) i ⟨addUnique [] (cdAt H i).own, []⟩
      (Nat.lt_succ_self i)
  unfold composedBlob
  refine ⟨hn List.nodup_nil, ?_, hbn (addUnique_nodup _ _ List.nodup_nil), ?_⟩
  · intro j
    rw [hc j]
    simp
  · intro f
    rw [hb f]
    constructor
    · rintro (hf | ⟨j, hr, he, _, hf⟩)
      · rw [addUnique_mem] at hf
        rcases hf with hf | hf
        · exact absurd hf (List.not_mem_nil f)
        · exact ⟨i, ReachP.refl i, hent, hf⟩
      · exact ⟨j, hr, he, hf⟩
    · rintro ⟨j, hr, he, hf⟩
      exact Or.inr ⟨j, hr, he, List.not_mem_nil j, hf⟩

/-- A diamond hierarchy: class 3 inherits from 1 and 2, both of which
inherit from class 0 (the Entity base with its "version" attribute). -/
def diamondH : Hier :=
  [{ bases := [], own := ["version"], isEnt := true },
   { bases := [0], own := ["a"], isEnt := true },
   { bases := [0], own := ["b"], isEnt := true },
   { bases := [1, 2], own := ["c"], isEnt := true }]

theorem c9_witness :
    WFH diamondH ∧ entAt diamondH 3 = true ∧
    ((composedBlob diamondH 3).checked.Nodup ∧
     (∀ j, j ∈ (composedBlob diamondH 3).checked ↔
        (ReachP diamondH 3 j ∧ entAt diamondH j = true)) ∧
     (composedBlob diamondH 3).blob.Nodup ∧
     (∀ f, f ∈ (composedBlob diamondH 3).blob ↔
        ∃ j, ReachP diamondH 3 j ∧ entAt diamondH j = true ∧
          f ∈ (cdAt diamondH j).own)) :=
  ⟨by decide, by decide,
   c9_composed_schema_is_lineage_union diamondH 3 (by decide) (by decide)⟩

end Cwmud
